import Mathlib

/-!
# Verification of the NPG Substation360 pipeline core

A shallow embedding of the repository's normalization and replication core:

* `src/app/ingest/normalize.py` — the payload walker (`_walk_points`),
  timestamp detection (`_detect_ts`), the phase classifier (`_phase_values`
  with its regex matchers and helpers), the row mapper
  (`normalize_voltage_mean_30min` / `normalize_current_mean_30min`) and the
  batched upsert (`_upsert`).
* `src/app/sync/cloud.py` — the replication synchronizer (`_sync_one`, `sync`).
* `src/app/main.py` — the default table list of the `/cloud/sync` route.

JSON values are modelled by an inductive type; Python semantics (truthiness,
`or`, `float()` / `int()` / `str()` coercions, `dict.get`) are modelled by
explicit executable functions. Floats are modelled by `ℚ` (no float
arithmetic occurs in the code under study: values are only parsed, carried
and stored). Python's `float()` on strings is modelled for finite decimal
literals (optional sign, digits, optional fraction); the `inf`/`nan`/exponent
forms are not modelled, and `str()` of composite values is abstracted — no
claim below depends on those corners.
-/

set_option autoImplicit false

namespace Sub360

/-- A JSON value as produced by `json.loads`: the input type of the
normalizers. `null` also stands for Python `None`. -/
inductive Json where
  | null : Json
  | bool (b : Bool) : Json
  | num (q : ℚ) : Json
  | str (s : String) : Json
  | arr (xs : List Json) : Json
  | obj (flds : List (String × Json)) : Json

/-- Python truthiness (`bool(v)`): `None`, `False`, `0`, `""`, `[]`, `{ }`
are falsy, everything else truthy. -/
def truthy : Json → Bool
  | .null => false
  | .bool b => b
  | .num q => decide (q ≠ 0)
  | .str s => decide (s ≠ "")
  | .arr xs => !xs.isEmpty
  | .obj flds => !flds.isEmpty

/-- Python `a or b`: returns `a` when truthy, else `b`. -/
def pyOr (a b : Json) : Json := if truthy a then a else b

/-- `v is None` (absent `dict.get` results are `null` in this model). -/
def isNull : Json → Bool
  | .null => true
  | _ => false

/-- `v in (None, "")`: the skip test used by `_detect_ts` and
`_numeric_value`. -/
def isNoneOrEmptyStr : Json → Bool
  | .null => true
  | .str s => decide (s = "")
  | _ => false

/-- First binding of key `k` in a dict's field list (Python dict keys are
unique, so first = only). -/
def dictGet (flds : List (String × Json)) (k : String) : Option Json :=
  (flds.find? (fun e => decide (e.1 = k))).map (·.2)

/-- Python `d.get(k)`: `None` when the key is absent. -/
def pyGet (flds : List (String × Json)) (k : String) : Json :=
  (dictGet flds k).getD Json.null

/-- Python `k in d`. -/
def containsKey (flds : List (String × Json)) (k : String) : Bool :=
  flds.any (fun e => decide (e.1 = k))

/-! ## String primitives

Executable replacements for `str.strip` / `str.upper` / `str.lower` /
`str.replace(pat, "")` / `str.split(sep)`, written by structural recursion
on the character list so they evaluate inside the kernel. -/

/-- Python `s.strip()` (whitespace at both ends). -/
def strTrim (s : String) : String :=
  ⟨((s.data.dropWhile Char.isWhitespace).reverse.dropWhile Char.isWhitespace).reverse⟩

/-- Python `s.upper()` (ASCII, all keys/labels in scope are ASCII). -/
def strUpper (s : String) : String := ⟨s.data.map Char.toUpper⟩

/-- Python `s.lower()`. -/
def strLower (s : String) : String := ⟨s.data.map Char.toLower⟩

/-- Python `s.replace("L", "")`: removes every occurrence of the
single-character pattern `"L"`. -/
def removeL (s : String) : String := ⟨s.data.filter (fun c => decide (c ≠ 'L'))⟩

/-- Python `s.split(sep)` for a one-character separator. -/
def splitChar (sep : Char) (s : String) : List String :=
  (s.data.foldr (fun c acc =>
    match acc with
    | cur :: rest => if c = sep then [] :: cur :: rest else (c :: cur) :: rest
    | [] => [[c]]) [[]]).map (fun cs => ⟨cs⟩)

/-! ## Numeric coercions (`float()`, `int()`, `str()`) -/

/-- Value of a decimal digit. -/
def digVal (c : Char) : ℕ := c.toNat - '0'.toNat

/-- Parse a non-empty all-digit character list as a natural number. -/
def parseNatDigits (cs : List Char) : Option ℕ :=
  if cs.isEmpty then none
  else if cs.all Char.isDigit then some (cs.foldl (fun a c => a * 10 + digVal c) 0)
  else none

/-- Strip an optional leading sign; returns (negative?, rest). -/
def stripSign : List Char → Bool × List Char
  | '+' :: r => (false, r)
  | '-' :: r => (true, r)
  | cs => (false, cs)

/-- Python `float(s)` on finite decimal literals: optional surrounding
whitespace, optional sign, digits with an optional single `.` (at least one
digit overall, as in `"1."`, `".5"`). -/
def parseFloat (s : String) : Option ℚ :=
  let cs := (strTrim s).toList
  let sgncs := stripSign cs
  let ip := (sgncs.2.span (fun c => !(c = '.' : Bool))).1
  let rest := (sgncs.2.span (fun c => !(c = '.' : Bool))).2
  let signed : Int → Int := fun n => if sgncs.1 then -n else n
  match rest with
  | [] => (parseNatDigits ip).map (fun n => mkRat (signed n) 1)
  | _ :: fp =>
    if fp.any (fun c => decide (c = '.')) then none
    else if ip.isEmpty && fp.isEmpty then none
    else if ip.all Char.isDigit && fp.all Char.isDigit then
      some (mkRat (signed ((ip ++ fp).foldl (fun a c => a * 10 + digVal c) 0 : ℕ))
        (10 ^ fp.length))
    else none

/-- Python `int(s)` on strings: optional whitespace, sign, digits only. -/
def parseIntStr (s : String) : Option Int :=
  let cs := (strTrim s).toList
  let sgncs := stripSign cs
  (parseNatDigits sgncs.2).map (fun n => if sgncs.1 then -(n : Int) else (n : Int))

/-- Python `float(v)` as used under `try/except`: numbers pass through,
booleans map to 0/1, numeric strings parse, everything else fails. -/
def pyFloat : Json → Option ℚ
  | .num q => some q
  | .bool b => some (if b then 1 else 0)
  | .str s => parseFloat s
  | _ => none

/-- Python `int(v)` as used under `try/except`: floats truncate toward
zero (`num.tdiv den`), integer strings parse, booleans map to 0/1,
everything else fails. -/
def pyInt : Json → Option Int
  | .num q => some (q.num.tdiv (q.den : Int))
  | .bool b => some (if b then 1 else 0)
  | .str s => parseIntStr s
  | _ => none

/-- Python `str(v)`. Exact on strings (the only case the claims exercise);
scalar and composite renderings are abstracted. -/
def pyStr : Json → String
  | .null => "None"
  | .bool b => if b then "True" else "False"
  | .num q => toString q
  | .str s => s
  | .arr _ => "<list>"
  | .obj _ => "<dict>"

/-! ## Timestamp detection (`_TS_KEYS`, `_detect_ts`) -/

/-- The fixed timestamp alias list `_TS_KEYS` of `normalize.py`. -/
def TS_KEYS : List String :=
  ["timestamp", "timeUtc", "timestampUtc", "timeUTC", "ts", "time",
   "endTimeUtc", "startTimeUtc", "periodEndUtc", "periodStartUtc",
   "dateTime", "datetime", "readingTimeUtc", "time_utc", "timestampUTC"]

/-- `_detect_ts`: the first timestamp-alias key whose value is neither
`None` nor `""`, rendered with `str()`. -/
def detectTs (flds : List (String × Json)) : Option String :=
  TS_KEYS.findSome? (fun k =>
    let v := pyGet flds k
    if isNoneOrEmptyStr v then none else some (pyStr v))

/-! ## Regex phase matchers (`_PAT_L1` … `_PAT_C`)

The patterns are applied to `str(key).lower()`, so the embedding works on
lowercase text; `[^a-z0-9]` is "not a lowercase letter or digit". `.` in
`voltage.*a` is modelled as "any character" (keys contain no newlines). -/

/-- Character class `[a-z0-9]`. -/
def isAlnumLC (c : Char) : Bool := ('a' ≤ c && c ≤ 'z') || c.isDigit

/-- Left boundary `(^|[^a-z0-9])`: start of string or a non-alnum
predecessor. -/
def boundaryL : Option Char → Bool
  | none => true
  | some c => !isAlnumLC c

/-- Right boundary `([^a-z0-9]|$)`. -/
def boundaryR : List Char → Bool
  | [] => true
  | c :: _ => !isAlnumLC c

/-- Run a positional matcher `f prev rest` at every position of the text
(`re.search` semantics), tracking the previous character. -/
def scanAux (f : Option Char → List Char → Bool) : Option Char → List Char → Bool
  | prev, [] => f prev []
  | prev, c :: t => f prev (c :: t) || scanAux f (some c) t

/-- `(^|[^a-z0-9]) tok ([^a-z0-9]|$)`: a delimited occurrence of `tok`. -/
def boundedOcc (tok : List Char) (h : List Char) : Bool :=
  scanAux (fun prev rest =>
    boundaryL prev && tok.isPrefixOf rest && boundaryR (rest.drop tok.length)) none h

/-- Substring occurrence (a bare alternative such as `voltagel1`). -/
def infixOccAux (n : List Char) : List Char → Bool
  | [] => n.isEmpty
  | c :: t => n.isPrefixOf (c :: t) || infixOccAux n t

/-- Substring occurrence of `n` in `h`. -/
def infixOcc (n h : List Char) : Bool := infixOccAux n h

/-- `word.*x`: the literal `word` followed, at any distance, by `x`. -/
def dotStarPat (word : List Char) (x : Char) (h : List Char) : Bool :=
  scanAux (fun _ rest =>
    word.isPrefixOf rest && (rest.drop word.length).contains x) none h

/-- `phase?\s*x` with a right boundary, tried at one position (both the
`phase` and `phas` forms, then whitespace, then `x`). -/
def phaseTokAt (x : Char) : List Char → Bool
  | 'p' :: 'h' :: 'a' :: 's' :: r1 =>
    let after : List Char → Bool := fun r =>
      match r.dropWhile Char.isWhitespace with
      | c :: r2 => c = x && boundaryR r2
      | [] => false
    (match r1 with
     | 'e' :: r => after r
     | _ => false) || after r1
  | _ => false

/-- `(^|[^a-z0-9])phase?\s*x([^a-z0-9]|$)` searched anywhere. -/
def phasePat (x : Char) (h : List Char) : Bool :=
  scanAux (fun prev rest => boundaryL prev && phaseTokAt x rest) none h

/-- `_PAT_L1`: `(?:^|[^a-z0-9])l1(?:[^a-z0-9]|$)|voltagel1|currentl1|^l1|l1$`. -/
def patL1 (k : String) : Bool :=
  let h := k.toList
  boundedOcc ['l', '1'] h || infixOcc "voltagel1".toList h ||
    infixOcc "currentl1".toList h || ['l', '1'].isPrefixOf h || ['l', '1'].isSuffixOf h

/-- `_PAT_L2`. -/
def patL2 (k : String) : Bool :=
  let h := k.toList
  boundedOcc ['l', '2'] h || infixOcc "voltagel2".toList h ||
    infixOcc "currentl2".toList h || ['l', '2'].isPrefixOf h || ['l', '2'].isSuffixOf h

/-- `_PAT_L3`. -/
def patL3 (k : String) : Bool :=
  let h := k.toList
  boundedOcc ['l', '3'] h || infixOcc "voltagel3".toList h ||
    infixOcc "currentl3".toList h || ['l', '3'].isPrefixOf h || ['l', '3'].isSuffixOf h

/-- `_PAT_A`: `(^|[^a-z0-9])phase?\s*a([^a-z0-9]|$)|voltage.*a|current.*a|(^|[^a-z0-9])a([^a-z0-9]|$)`. -/
def patA (k : String) : Bool :=
  let h := k.toList
  phasePat 'a' h || dotStarPat "voltage".toList 'a' h ||
    dotStarPat "current".toList 'a' h || boundedOcc ['a'] h

/-- `_PAT_B`. -/
def patB (k : String) : Bool :=
  let h := k.toList
  phasePat 'b' h || dotStarPat "voltage".toList 'b' h ||
    dotStarPat "current".toList 'b' h || boundedOcc ['b'] h

/-- `_PAT_C`. -/
def patC (k : String) : Bool :=
  let h := k.toList
  phasePat 'c' h || dotStarPat "voltage".toList 'c' h ||
    dotStarPat "current".toList 'c' h || boundedOcc ['c'] h

/-! ## Phase classifier (`_phase_from_subject`, `_numeric_value`, `_phase_values`) -/

/-- `_phase_from_subject`: normalize a subject/channel label. -/
def phaseFromSubject (name : Json) : Option String :=
  let s := strUpper (strTrim (pyStr name))
  if s = "L1" || s = "PHASE A" || s = "A" then some "L1"
  else if s = "L2" || s = "PHASE B" || s = "B" then some "L2"
  else if s = "L3" || s = "PHASE C" || s = "C" then some "L3"
  else if s = "TOTAL" || s = "3-PHASE" || s = "3PH" || s = "ALL" then some "TOTAL"
  else none

/-- The fixed numeric-field priority list of `_numeric_value`. -/
def NUM_KEYS : List String :=
  ["numericData", "numericValue", "value", "mean", "avg", "average",
   "meanValue", "dataValue"]

/-- `_numeric_value`: first priority field that is neither `None` nor `""`
and coerces with `float()`. -/
def numericValue (flds : List (String × Json)) : Option ℚ :=
  NUM_KEYS.findSome? (fun k =>
    let v := pyGet flds k
    if isNoneOrEmptyStr v then none else pyFloat v)

/-- One iteration of `_phase_values` step 3: skip `None` and
non-`float()`-coercible values, then match the lowercased key against the
pattern pairs, appending `("A", f)` / `("B", f)` / `("C", f)`. -/
def scanStep (out : List (String × ℚ)) (e : String × Json) : List (String × ℚ) :=
  if isNull e.2 then out
  else
    match pyFloat e.2 with
    | none => out
    | some f =>
      let kl := strLower e.1
      if patL1 kl || patA kl then out ++ [("A", f)]
      else if patL2 kl || patB kl then out ++ [("B", f)]
      else if patL3 kl || patC kl then out ++ [("C", f)]
      else out

/-- Step 3 of `_phase_values`: scan the point's own key/value pairs for
float-coercible values under phase-pattern keys, in dict order. -/
def phaseScan (flds : List (String × Json)) : List (String × ℚ) :=
  flds.foldl scanStep []

/-- The subject/channel-name `or`-chain of `_phase_values` step 1. -/
def subjField (flds : List (String × Json)) : Json :=
  pyOr (pyGet flds "subjectAssetName")
    (pyOr (pyGet flds "subjectPhaseName") (pyGet flds "channelName"))

/-- The explicit-phase `or`-chain of `_phase_values` step 2
(`d.get("phase") or d.get("Phase") or d.get("PHASE")`). -/
def phaseField (flds : List (String × Json)) : Json :=
  pyOr (pyGet flds "phase") (pyOr (pyGet flds "Phase") (pyGet flds "PHASE"))

/-- Step 1 of `_phase_values` (subject-name heuristic): returns the pair
when it fires, `none` when the cascade falls through. -/
def phaseStep1 (flds : List (String × Json)) : Option (List (String × ℚ)) :=
  if truthy (subjField flds) then
    match phaseFromSubject (subjField flds), numericValue flds with
    | some ph, some v => some [(ph, v)]
    | _, _ => none
  else none

/-- Step 2 of `_phase_values` (explicit phase field): the phase string is
`str(ph).strip().upper().replace("L", "")`. -/
def phaseStep2 (flds : List (String × Json)) : Option (List (String × ℚ)) :=
  if truthy (phaseField flds) then
    match numericValue flds with
    | some v => some [(removeL (strUpper (strTrim (pyStr (phaseField flds)))), v)]
    | none => none
  else none

/-- `_phase_values`: the prioritized cascade — subject-name heuristic,
explicit phase field, key scan, `TOTAL` fallback. -/
def phaseValues (flds : List (String × Json)) : List (String × ℚ) :=
  match phaseStep1 flds with
  | some out => out
  | none =>
    match phaseStep2 flds with
    | some out => out
    | none =>
      let out := phaseScan flds
      if out.isEmpty then
        match numericValue flds with
        | some v => [("TOTAL", v)]
        | none => []
      else out

/-! ## Payload walker (`_walk_points`)

The walker recurses with a `depth` counter and returns at `depth > 8`, so
each call processes at most `9 - depth` nesting levels. The embedding makes
that bound the (structurally decreasing) fuel: `walkPoints obj iid unit d =
walkGo (9 - d) obj iid unit`, an exact transliteration of the guard. -/

/-- A yielded point: the field list of the point dict (after the walker's
`instrumentId`/`unit` enrichment). -/
abbrev Point := List (String × Json)

/-- `iid2 = obj.get("instrumentId") or obj.get("instrument_id") or obj.get("id") or iid`. -/
def inheritIid (flds : List (String × Json)) (iid : Json) : Json :=
  pyOr (pyGet flds "instrumentId")
    (pyOr (pyGet flds "instrument_id") (pyOr (pyGet flds "id") iid))

/-- `unit2 = obj.get("unit") or obj.get("units") or unit`. -/
def inheritUnit (flds : List (String × Json)) (unitv : Json) : Json :=
  pyOr (pyGet flds "unit") (pyOr (pyGet flds "units") unitv)

/-- The dict the walker yields for a point: a copy of the object, with
`instrumentId` added when `iid2 is not None` and the key is absent, and
`unit` added when `unit2` is truthy and the key is absent. -/
def mkPoint (flds : List (String × Json)) (iid2 unit2 : Json) : Point :=
  let d1 := if !(isNull iid2) && !(containsKey flds "instrumentId")
    then flds ++ [("instrumentId", iid2)] else flds
  if truthy unit2 && !(containsKey d1 "unit") then d1 ++ [("unit", unit2)] else d1

/-- `_walk_points` with explicit fuel (`fuel = 9 - depth`): a dict yields
itself first when it has a timestamp, then its values are walked in order
with the inherited context; list items are walked with the unchanged
context; scalars yield nothing. -/
def walkGo : ℕ → Json → Json → Json → List Point
  | 0, _, _, _ => []
  | fuel + 1, .obj flds, iid, unitv =>
    let iid2 := inheritIid flds iid
    let unit2 := inheritUnit flds unitv
    (match detectTs flds with
     | some _ => [mkPoint flds iid2 unit2]
     | none => []) ++
      flds.foldr (fun e acc => walkGo fuel e.2 iid2 unit2 ++ acc) []
  | fuel + 1, .arr xs, iid, unitv =>
    xs.foldr (fun v acc => walkGo fuel v iid unitv ++ acc) []
  | _ + 1, _, _, _ => []

/-- `_walk_points(obj, iid, unit, depth)`. -/
def walkPoints (obj : Json) (iid unitv : Json) (depth : ℕ) : List Point :=
  walkGo (9 - depth) obj iid unitv

/-! ## Row mapper (`normalize_voltage_mean_30min` / `normalize_current_mean_30min`) -/

/-- A canonical silver row, the dict
`{"i": iid, "t": ts, "p": ph, "v": val, "u": unit}` bound into the upsert
statement. -/
structure Row where
  i : Int
  t : String
  p : String
  v : ℚ
  u : Json

/-- The id-alias `or`-chain the mapper resolves for a point
(`p.get("instrumentId") or p.get("instrument_id") or p.get("id")`). -/
def pointIid (p : Point) : Json :=
  pyOr (pyGet p "instrumentId") (pyOr (pyGet p "instrument_id") (pyGet p "id"))

/-- The per-point body of the normalizer loop: `none` means the point is
skipped (missing id, missing timestamp, no phase pair, or a
non-`int()`-coercible id); `some rows` yields one row per phase pair. -/
def processPoint (defaultUnit : String) (p : Point) : Option (List Row) :=
  let iid := pointIid p
  let u := pyOr (pyGet p "unit") (pyOr (pyGet p "units") (Json.str defaultUnit))
  let phases := phaseValues p
  match detectTs p with
  | none => none
  | some ts =>
    if isNull iid || phases.isEmpty then none
    else
      match pyInt iid with
      | none => none
      | some n => some (phases.map (fun pv => ⟨n, ts, pv.1, pv.2, u⟩))

/-- The mapper loop over the discovered points: accumulates the mapped rows
in order and counts the skipped points. -/
def mapPoints (defaultUnit : String) (pts : List Point) : List Row × ℕ :=
  pts.foldl (fun acc p =>
    match processPoint defaultUnit p with
    | some rs => (acc.1 ++ rs, acc.2)
    | none => (acc.1, acc.2 + 1)) ([], 0)

/-- `normalize_voltage_mean_30min` up to the store call: the mapped rows
(those handed to `_upsert`) and the skipped-point count. -/
def normalizeVoltageRows (rows : Json) : List Row × ℕ :=
  mapPoints "V" (walkPoints rows Json.null Json.null 0)

/-- `normalize_current_mean_30min` up to the store call. -/
def normalizeCurrentRows (rows : Json) : List Row × ℕ :=
  mapPoints "A" (walkPoints rows Json.null Json.null 0)

/-! ## Paths into a JSON value

Positions are addressed positionally (n-th field / n-th item), giving a
precise meaning to "nested at depth d" and "ancestor" for the walker
theorems. -/

/-- One navigation step. -/
inductive Step where
  | fld (n : ℕ) : Step
  | idx (n : ℕ) : Step

/-- The value at a path, if the path is valid. -/
def getAt : Json → List Step → Option Json
  | o, [] => some o
  | .obj flds, .fld n :: π => match flds[n]? with
    | some e => getAt e.2 π
    | none => none
  | .arr xs, .idx n :: π => match xs[n]? with
    | some v => getAt v π
    | none => none
  | _, _ => none

/-- The context value (instrument id or unit, selected by `upd`) that the
walker passes into the node at the end of the path, starting from `cur`:
each dict traversed on the way applies its own override. -/
def ctxInto (upd : List (String × Json) → Json → Json) : Json → Json → List Step → Json
  | cur, _, [] => cur
  | cur, .obj flds, .fld n :: π => (match flds[n]? with
    | some e => ctxInto upd (upd flds cur) e.2 π
    | none => cur)
  | cur, .arr xs, .idx n :: π => (match xs[n]? with
    | some v => ctxInto upd cur v π
    | none => cur)
  | cur, _, _ => cur

/-- The inherited instrument id entering the node at a path. -/
def iidInto (iid obj : Json) (π : List Step) : Json := ctxInto inheritIid iid obj π

/-- The inherited unit entering the node at a path. -/
def unitInto (unitv obj : Json) (π : List Step) : Json := ctxInto inheritUnit unitv obj π

/-- The dict nodes strictly above the end of a path whose context the
walker applies — the point's ancestors, outermost first. -/
def ancObjs : Json → List Step → List Json
  | .obj flds, .fld n :: π => (match flds[n]? with
    | some e => Json.obj flds :: ancObjs e.2 π
    | none => [])
  | .arr xs, .idx n :: π => (match xs[n]? with
    | some v => ancObjs v π
    | none => [])
  | _, _ => []

/-- The instrument id a dict node itself defines: the first truthy value
among `instrumentId` / `instrument_id` / `id` (Python `or` semantics). -/
def ownIdOf : Json → Option Json
  | .obj flds =>
    let g1 := pyGet flds "instrumentId"
    let g2 := pyGet flds "instrument_id"
    let g3 := pyGet flds "id"
    if truthy g1 then some g1
    else if truthy g2 then some g2
    else if truthy g3 then some g3
    else none
  | _ => none

/-- The unit a dict node itself defines (`unit` / `units`). -/
def ownUnitOf : Json → Option Json
  | .obj flds =>
    let g1 := pyGet flds "unit"
    let g2 := pyGet flds "units"
    if truthy g1 then some g1
    else if truthy g2 then some g2
    else none
  | _ => none

/-! ## The upsert store (`_upsert` and the `ON CONFLICT … DO UPDATE` SQL)

A SQL table under a unique key is a list of `(key, payload)` entries;
`INSERT … ON CONFLICT (key) DO UPDATE SET payload` updates the matching
entry in place when the key exists and appends otherwise. -/

section Store

variable {κ ν : Type} [DecidableEq κ]

/-- One `INSERT … ON CONFLICT (k) DO UPDATE` statement execution. -/
def upsertK (s : List (κ × ν)) (k : κ) (v : ν) : List (κ × ν) :=
  if s.any (fun e => decide (e.1 = k)) then
    s.map (fun e => if e.1 = k then (e.1, v) else e)
  else s ++ [(k, v)]

/-- Executing a batch of upserts in order. -/
def applyBatchK (s : List (κ × ν)) (b : List (κ × ν)) : List (κ × ν) :=
  b.foldl (fun t e => upsertK t e.1 e.2) s

/-- The key has an entry in the table. -/
def HasKey (s : List (κ × ν)) (k : κ) : Prop := ∃ e ∈ s, e.1 = k

/-- The payload of the batch's last statement with key `k`, if any. -/
def lastVal (b : List (κ × ν)) (k : κ) : Option ν :=
  match b with
  | [] => none
  | e :: rest =>
    match lastVal rest k with
    | some v => some v
    | none => if e.1 = k then some e.2 else none

end Store

/-- The canonical-reading unique key `(instrument_id, ts_utc, phase)`. -/
def keyOf (r : Row) : Int × String × String := (r.i, r.t, r.p)

/-- The columns the voltage/current upserts overwrite: `value`, `unit`. -/
def valOf (r : Row) : ℚ × Json := (r.v, r.u)

/-- The silver table state reached by running the normalizer upsert batch
of `_upsert` against store state `s`. -/
def applyRows (s : List ((Int × String × String) × (ℚ × Json))) (rows : List Row) :
    List ((Int × String × String) × (ℚ × Json)) :=
  applyBatchK s (rows.map (fun r => (keyOf r, valOf r)))

/-! ## The transaction wrapper of `_upsert`

`_upsert` opens one session, executes one statement per row, and commits
once at the end; leaving the `with SessionLocal()` block on an exception
discards the uncommitted work (SQLAlchemy rolls back a session closed
without commit). The statement-level failure is abstracted by a predicate
`fail` on rows. -/

section Tx

variable {κ ν : Type} [DecidableEq κ]

/-- Execute the statements one after another against the session's pending
state; the first failing statement aborts the session. -/
def runRows (fail : Row → Bool) (kv : Row → κ × ν) :
    List (κ × ν) → List Row → Option (List (κ × ν))
  | pending, [] => some pending
  | pending, r :: rest =>
    if fail r then none
    else runRows fail kv (upsertK pending (kv r).1 (kv r).2) rest

/-- `_upsert(sql, rows)`: on an empty batch return 0 without touching the
store; otherwise run all statements and commit, or roll back to the
pre-call state and propagate the error. Returns the new committed state
and `len(rows)` on success. -/
def upsertCall (fail : Row → Bool) (kv : Row → κ × ν)
    (committed : List (κ × ν)) (rows : List Row) :
    List (κ × ν) × Except String ℕ :=
  if rows.isEmpty then (committed, Except.ok 0)
  else
    match runRows fail kv committed rows with
    | some pending => (pending, Except.ok rows.length)
    | none => (committed, Except.error "PersistenceError")

end Tx

/-! ## Replication synchronizer (`_sync_one`, `sync`, the `/cloud/sync` route)

Timestamps of the 10-minute tables are modelled as seconds (`ts_utc ≥
now() - interval 'h hours'` becomes `now - 3600 * h ≤ ts`). The
instrument's `meta` JSON payload is carried opaquely as a string. Errors
are a closed type: `notConfigured` is the `RuntimeError("Cloud sink not
configured")` pre-flight, `unsupportedTable` the final `ValueError`. -/

/-- A primary-store instrument row. -/
structure InstRow where
  id : Int
  name : String
  commissioned : Bool
  meta : String
deriving DecidableEq

/-- A primary-store windowed replica row (`voltage_mean_10m` /
`current_mean_10m`). -/
structure SRow where
  iid : Int
  ts : Int
  phase : String
  value : ℚ
  unit : String
deriving DecidableEq

/-- The primary store and clock visible to one `sync` run. -/
structure SyncEnv where
  cloudConfigured : Bool
  instruments : List InstRow
  voltage10m : List SRow
  current10m : List SRow
  now : Int
deriving DecidableEq

/-- The secondary (cloud) store: the three replicated tables, each keyed as
its unique index prescribes. -/
structure CloudState where
  instr : List (Int × (String × Bool × String))
  v10 : List ((Int × Int × String) × (ℚ × String))
  c10 : List ((Int × Int × String) × (ℚ × String))
deriving DecidableEq

/-- The errors `_sync_one` raises. -/
inductive SyncError where
  | notConfigured : SyncError
  | unsupportedTable (t : String) : SyncError
deriving DecidableEq

/-- The inclusive trailing window of `_sync_one`'s windowed select:
`ts_utc >= now() - (h || ' hours')::interval`. -/
def selectWindowV (env : SyncEnv) (h : Int) : List SRow :=
  env.voltage10m.filter (fun r => decide (env.now - 3600 * h ≤ r.ts))

/-- The current-table window. -/
def selectWindowC (env : SyncEnv) (h : Int) : List SRow :=
  env.current10m.filter (fun r => decide (env.now - 3600 * h ≤ r.ts))

/-- `_sync_one(table, since_hours)`: pre-flight configuration check, then a
full copy for `instrument`, a windowed copy for the two 10-minute tables,
and `ValueError` for every other name. Returns the updated cloud state and
the copied-row count. -/
def syncOne (env : SyncEnv) (cloud : CloudState) (table : String) (h : Int) :
    Except SyncError (CloudState × ℕ) :=
  if !env.cloudConfigured then .error .notConfigured
  else if table = "instrument" then
    let rows := env.instruments
    .ok (⟨applyBatchK cloud.instr (rows.map (fun r => (r.id, (r.name, r.commissioned, r.meta)))),
          cloud.v10, cloud.c10⟩, rows.length)
  else if table = "voltage_mean_10m" then
    let rows := selectWindowV env h
    .ok (⟨cloud.instr,
          applyBatchK cloud.v10 (rows.map (fun r => ((r.iid, r.ts, r.phase), (r.value, r.unit)))),
          cloud.c10⟩, rows.length)
  else if table = "current_mean_10m" then
    let rows := selectWindowC env h
    .ok (⟨cloud.instr, cloud.v10,
          applyBatchK cloud.c10 (rows.map (fun r => ((r.iid, r.ts, r.phase), (r.value, r.unit))))⟩,
        rows.length)
  else .error (.unsupportedTable table)

/-- `sync(tables, since_hours)`: `for t in tables: out[t] = _sync_one(t, …)`
— an uncaught exception from one table propagates out of the loop. -/
def syncRun (env : SyncEnv) (cloud : CloudState) (tables : List String) (h : Int) :
    Except SyncError (CloudState × List (String × ℕ)) :=
  match tables with
  | [] => .ok (cloud, [])
  | t :: rest =>
    match syncOne env cloud t h with
    | .ok cn =>
      (match syncRun env cn.1 rest h with
       | .ok out => .ok (out.1, (t, cn.2) :: out.2)
       | .error e => .error e)
    | .error e => .error e

/-- The table names `_sync_one` accepts. -/
def supportedTables : List String := ["instrument", "voltage_mean_10m", "current_mean_10m"]

/-- The silver table `normalize_voltage_mean_30min` inserts into
(`INSERT INTO voltage_mean_30m …`). -/
def voltageTargetTable : String := "voltage_mean_30m"

/-- The silver table `normalize_current_mean_30min` inserts into. -/
def currentTargetTable : String := "current_mean_30m"

/-- The `/cloud/sync` route's default:
`tlist = [t.strip() for t in "instrument,voltage_mean_30m,current_mean_30m".split(",") if t.strip()]`. -/
def defaultSyncTables : List String :=
  ((splitChar ',' "instrument,voltage_mean_30m,current_mean_30m").map strTrim).filter
    (fun t => decide (t ≠ ""))


/-! ## Concrete inputs used by counterexamples and witnesses -/

/-- A multi-phase key-scan point with the exact shape of the spec's example
(values as exact rationals). -/
def mkKeyScanPoint (x y z : ℚ) (t : String) : Point :=
  [("voltageL1", .num x), ("voltageL2", .num y), ("voltageL3", .num z),
   ("timestamp", .str t)]

/-- The spec's multi-phase example point. -/
def ptC1 : Point := mkKeyScanPoint (mkRat 2301 10) (mkRat 2298 10) 231 "T"

/-- An explicit-phase point: `{phase: "L1", value: 5, timestamp: "T"}`. -/
def ptC2 : Point := [("phase", .str "L1"), ("value", .num 5), ("timestamp", .str "T")]

/-- A point carrying a value but no timestamp-alias key. -/
def ptNoTs : Point := [("instrumentId", .num 3), ("value", .num 9)]

/-- The spec's nested-propagation payload
`{instrumentId: 7, values: [{timestamp: T1, value: 1}, {timestamp: T2, value: 2}]}`. -/
def exC8 : Json :=
  .obj [("instrumentId", .num 7),
        ("values", .arr [.obj [("timestamp", .str "T1"), ("value", .num 1)],
                         .obj [("timestamp", .str "T2"), ("value", .num 2)]])]

/-- The point the walker yields for the first element of `exC8.values`. -/
def pt1C8 : Point := [("timestamp", .str "T1"), ("value", .num 1), ("instrumentId", .num 7)]

/-- Two canonical rows for the transaction witnesses. -/
def rowW1 : Row := ⟨1, "T", "L1", 10, .str "V"⟩

/-- A second canonical row (same key, newer value). -/
def rowW2 : Row := ⟨1, "T", "L1", 11, .str "V"⟩

/-- A statement-failure predicate that rejects instrument 1. -/
def failOnIid1 (r : Row) : Bool := decide (r.i = 1)

/-- A statement-failure predicate that never fires. -/
def neverFail (_ : Row) : Bool := false

/-- The canonical-row key/value view handed to the upsert. -/
def rowKV (r : Row) : (Int × String × String) × (ℚ × Json) := (keyOf r, valOf r)

/-- A configured sync environment with one instrument and one voltage row
sitting exactly on the window boundary (`now = 24h`, `ts = 0`). -/
def envW : SyncEnv := ⟨true, [⟨1, "i1", true, "m"⟩], [⟨1, 0, "L1", 10, "V"⟩], [], 86400⟩

/-- An empty cloud store. -/
def cloudEmpty : CloudState := ⟨[], [], []⟩

/-- The boundary replica row of `envW`. -/
def rowBoundary : SRow := ⟨1, 0, "L1", 10, "V"⟩

/-- A configured sync environment whose `current_mean_10m` table holds one
row sitting exactly on the window boundary (`now = 24h`, `ts = 0`). -/
def envWC : SyncEnv := ⟨true, [], [], [⟨2, 0, "L2", 7, "A"⟩], 86400⟩

/-- The boundary current-table row of `envWC`. -/
def rowBoundaryC : SRow := ⟨2, 0, "L2", 7, "A"⟩

/-! # Lemmas about the upsert store -/

section StoreLemmas

variable {κ ν : Type} [DecidableEq κ]

/-- The in-place update one conflicting upsert performs on an entry. -/
def upd1 (k : κ) (v : ν) (e : κ × ν) : κ × ν := if e.1 = k then (e.1, v) else e

/-- The cumulative update a whole batch performs on an entry whose key is
already present. -/
def updAll (b : List (κ × ν)) (e : κ × ν) : κ × ν :=
  match lastVal b e.1 with
  | some v => (e.1, v)
  | none => e

theorem any_key_iff {s : List (κ × ν)} {k : κ} :
    s.any (fun e => decide (e.1 = k)) = true ↔ HasKey s k := by
  simp [HasKey, List.any_eq_true]

theorem fst_upd1 (k : κ) (v : ν) (e : κ × ν) : (upd1 k v e).1 = e.1 := by
  unfold upd1; split <;> rfl

theorem upsertK_of_hasKey {s : List (κ × ν)} {k : κ} (v : ν) (h : HasKey s k) :
    upsertK s k v = s.map (upd1 k v) := by
  unfold upsertK upd1
  rw [if_pos (any_key_iff.mpr h)]

theorem hasKey_map_upd1 {s : List (κ × ν)} {k k' : κ} {v : ν} :
    HasKey (s.map (upd1 k v)) k' ↔ HasKey s k' := by
  constructor
  · rintro ⟨e, he, hk⟩
    rcases List.mem_map.mp he with ⟨e0, he0, rfl⟩
    exact ⟨e0, he0, by rw [← fst_upd1 k v e0]; exact hk⟩
  · rintro ⟨e, he, hk⟩
    exact ⟨upd1 k v e, List.mem_map.mpr ⟨e, he, rfl⟩, by rw [fst_upd1]; exact hk⟩

theorem hasKey_upsertK_self (s : List (κ × ν)) (k : κ) (v : ν) :
    HasKey (upsertK s k v) k := by
  unfold upsertK
  split
  · next h =>
    rcases any_key_iff.mp h with ⟨e, he, hk⟩
    refine ⟨(e.1, v), List.mem_map.mpr ⟨e, he, by rw [if_pos hk]⟩, hk⟩
  · exact ⟨(k, v), List.mem_append_right _ (List.mem_singleton.mpr rfl), rfl⟩

theorem hasKey_upsertK_mono {s : List (κ × ν)} {k' : κ} (k : κ) (v : ν)
    (h : HasKey s k') : HasKey (upsertK s k v) k' := by
  unfold upsertK
  split
  · exact hasKey_map_upd1.mpr h
  · rcases h with ⟨e, he, hk⟩
    exact ⟨e, List.mem_append_left _ he, hk⟩

theorem hasKey_applyBatchK_mono {k' : κ} :
    ∀ (b : List (κ × ν)) (s : List (κ × ν)), HasKey s k' → HasKey (applyBatchK s b) k'
  | [], _, h => h
  | e :: rest, s, h =>
    hasKey_applyBatchK_mono rest _ (hasKey_upsertK_mono e.1 e.2 h)

theorem hasKey_applyBatchK_of_mem {kv : κ × ν} :
    ∀ (b : List (κ × ν)) (s : List (κ × ν)), kv ∈ b → HasKey (applyBatchK s b) kv.1
  | e :: rest, s, h => by
    rcases List.mem_cons.mp h with rfl | h'
    · exact hasKey_applyBatchK_mono rest _ (hasKey_upsertK_self s kv.1 kv.2)
    · exact hasKey_applyBatchK_of_mem rest _ h'

theorem updAll_upd1 (b : List (κ × ν)) (kv : κ × ν) (e : κ × ν) :
    updAll b (upd1 kv.1 kv.2 e) = updAll (kv :: b) e := by
  unfold updAll upd1
  rw [show (if e.1 = kv.1 then (e.1, kv.2) else e).1 = e.1 from by split <;> rfl]
  show _ = (match (match lastVal b e.1 with
    | some v => some v
    | none => if kv.1 = e.1 then some kv.2 else none) with
    | some v => (e.1, v)
    | none => e)
  cases h : lastVal b e.1 with
  | some v => simp [h]
  | none =>
    simp only [h]
    by_cases hk : e.1 = kv.1
    · rw [if_pos hk, if_pos hk.symm]
    · rw [if_neg hk, if_neg (fun hh => hk hh.symm)]

theorem applyBatchK_eq_map :
    ∀ (b : List (κ × ν)) (s : List (κ × ν)), (∀ e ∈ b, HasKey s e.1) →
      applyBatchK s b = s.map (updAll b)
  | [], s, _ => by
    show s = s.map (updAll [])
    have : updAll ([] : List (κ × ν)) = id := by funext e; rfl
    rw [this, List.map_id]
  | kv :: rest, s, h => by
    show applyBatchK (upsertK s kv.1 kv.2) rest = _
    rw [upsertK_of_hasKey kv.2 (h kv (List.mem_cons_self kv rest))]
    rw [applyBatchK_eq_map rest _ (fun e he => hasKey_map_upd1.mpr (h e (List.mem_cons_of_mem kv he)))]
    rw [List.map_map]
    have : updAll rest ∘ upd1 kv.1 kv.2 = updAll (kv :: rest) := funext (updAll_upd1 rest kv)
    rw [this]

theorem upsertK_self_value {s : List (κ × ν)} {k : κ} {v : ν} :
    ∀ e ∈ upsertK s k v, e.1 = k → e.2 = v := by
  intro e he hk
  unfold upsertK at he
  split at he
  · rcases List.mem_map.mp he with ⟨e0, _, rfl⟩
    by_cases h0 : e0.1 = k
    · rw [if_pos h0]
    · rw [if_neg h0] at hk
      exact absurd hk h0
  · next hna =>
    rcases List.mem_append.mp he with h1 | h1
    · exact absurd (any_key_iff.mpr ⟨e, h1, hk⟩) (by simpa using hna)
    · rcases List.mem_singleton.mp h1 with rfl
      rfl

theorem lastVal_eq_none_iff {k : κ} :
    ∀ {b : List (κ × ν)}, lastVal b k = none ↔ ∀ e ∈ b, e.1 ≠ k
  | [] => by simp [lastVal]
  | kv :: rest => by
    show (match lastVal rest k with
      | some v => some v
      | none => if kv.1 = k then some kv.2 else none) = none ↔ _
    cases h : lastVal rest k with
    | some v =>
      simp only [h]
      constructor
      · intro hh; cases hh
      · intro hall
        exact absurd h (by rw [lastVal_eq_none_iff.mpr (fun e he => hall e (List.mem_cons_of_mem kv he))]; simp)
    | none =>
      simp only [h]
      constructor
      · intro hh e he
        rcases List.mem_cons.mp he with rfl | h'
        · intro hk; rw [if_pos hk] at hh; cases hh
        · exact lastVal_eq_none_iff.mp h e h'
      · intro hall
        rw [if_neg (hall kv (List.mem_cons_self kv rest))]

theorem value_constant_applyBatchK {k : κ} {v : ν} :
    ∀ (b : List (κ × ν)) (t : List (κ × ν)),
      (∀ e ∈ t, e.1 = k → e.2 = v) → (∀ kv ∈ b, kv.1 ≠ k) →
      ∀ e ∈ applyBatchK t b, e.1 = k → e.2 = v
  | [], _, ht, _, e, he, hk => ht e he hk
  | kv :: rest, t, ht, hb, e, he, hk => by
    refine value_constant_applyBatchK rest (upsertK t kv.1 kv.2) ?_
      (fun kv' h' => hb kv' (List.mem_cons_of_mem kv h')) e he hk
    intro e' he' hk'
    have hkv : kv.1 ≠ k := hb kv (List.mem_cons_self kv rest)
    unfold upsertK at he'
    split at he'
    · rcases List.mem_map.mp he' with ⟨e0, he0, rfl⟩
      by_cases h0 : e0.1 = kv.1
      · rw [if_pos h0] at hk'
        exact absurd (h0.symm.trans hk') hkv
      · rw [if_neg h0] at hk' he' ⊢
        exact ht e0 he0 hk'
    · rcases List.mem_append.mp he' with h1 | h1
      · exact ht e' h1 hk'
      · rcases List.mem_singleton.mp h1 with rfl
        exact absurd hk' hkv

theorem updAll_fixed :
    ∀ (b : List (κ × ν)) (s : List (κ × ν)), ∀ e ∈ applyBatchK s b, updAll b e = e
  | [], _, _, _ => rfl
  | kv :: rest, s, e, he => by
    have he' : e ∈ applyBatchK (upsertK s kv.1 kv.2) rest := he
    have ih := updAll_fixed rest (upsertK s kv.1 kv.2) e he'
    unfold updAll at ih ⊢
    show (match (match lastVal rest e.1 with
      | some v => some v
      | none => if kv.1 = e.1 then some kv.2 else none) with
      | some v => (e.1, v)
      | none => e) = e
    cases hl : lastVal rest e.1 with
    | some v => simpa [hl] using ih
    | none =>
      simp only [hl]
      by_cases hk : kv.1 = e.1
      · rw [if_pos hk]
        have hval : e.2 = kv.2 := by
          refine value_constant_applyBatchK rest (upsertK s kv.1 kv.2) ?_ ?_ e he' hk.symm
          · intro e' he'' hk'
            exact upsertK_self_value e' he'' hk'
          · intro kv' h'
            have := lastVal_eq_none_iff.mp hl kv' h'
            exact fun hh => this (hh.trans hk)
        rw [← hval]
      · rw [if_neg hk]

theorem applyBatchK_idem (s : List (κ × ν)) (b : List (κ × ν)) :
    applyBatchK (applyBatchK s b) b = applyBatchK s b := by
  have hkeys : ∀ e ∈ b, HasKey (applyBatchK s b) e.1 :=
    fun e he => hasKey_applyBatchK_of_mem b s he
  rw [applyBatchK_eq_map b _ hkeys]
  calc (applyBatchK s b).map (updAll b)
      = (applyBatchK s b).map id :=
        List.map_congr_left (fun e he => updAll_fixed b s e he)
    _ = applyBatchK s b := List.map_id _

end StoreLemmas

/-! # Lemmas about the row mapper -/

theorem mapPoints_loop_spec (du : String) :
    ∀ (pts : List Point) (acc : List Row × ℕ),
      (pts.foldl (fun acc p =>
        match processPoint du p with
        | some rs => (acc.1 ++ rs, acc.2)
        | none => (acc.1, acc.2 + 1)) acc).2 =
      acc.2 + pts.countP (fun p => (processPoint du p).isNone)
  | [], acc => by simp
  | p :: rest, acc => by
    cases h : processPoint du p <;>
      simp [List.countP_cons, h, List.foldl_cons, mapPoints_loop_spec du rest] <;> omega

theorem mapPoints_skipped (du : String) (pts : List Point) :
    (mapPoints du pts).2 = pts.countP (fun p => (processPoint du p).isNone) := by
  unfold mapPoints
  rw [mapPoints_loop_spec du pts ([], 0)]
  simp

theorem countP_some_add_none (du : String) :
    ∀ pts : List Point,
      pts.countP (fun p => (processPoint du p).isSome) +
        pts.countP (fun p => (processPoint du p).isNone) = pts.length
  | [] => rfl
  | p :: rest => by
    have ih := countP_some_add_none du rest
    cases h : processPoint du p <;> simp [List.countP_cons, h] <;> omega

/-! # Lemmas about the payload walker -/

theorem mem_foldr_append {α β : Type} (f : α → List β) :
    ∀ (l : List α) (p : β), p ∈ l.foldr (fun a acc => f a ++ acc) [] ↔ ∃ a ∈ l, p ∈ f a
  | [], p => by simp
  | a :: rest, p => by
    simp only [List.foldr_cons, List.mem_append, mem_foldr_append f rest p, List.mem_cons]
    constructor
    · rintro (h | ⟨b, hb, hp⟩)
      · exact ⟨a, Or.inl rfl, h⟩
      · exact ⟨b, Or.inr hb, hp⟩
    · rintro ⟨b, rfl | hb, hp⟩
      · exact Or.inl hp
      · exact Or.inr ⟨b, hb, hp⟩

theorem findSome?_append_opt {α β : Type} (f : α → Option β) :
    ∀ (l₁ l₂ : List α), (l₁ ++ l₂).findSome? f =
      match l₁.findSome? f with
      | some v => some v
      | none => l₂.findSome? f
  | [], l₂ => by simp [List.findSome?]
  | a :: rest, l₂ => by
    simp only [List.cons_append, List.findSome?]
    cases f a with
    | some v => rfl
    | none => exact findSome?_append_opt f rest l₂

theorem walkGo_sound :
    ∀ (fuel : ℕ) (obj iid unitv : Json) (p : Point), p ∈ walkGo fuel obj iid unitv →
      ∃ (π : List Step) (flds : List (String × Json)),
        getAt obj π = some (.obj flds) ∧ π.length < fuel ∧
        (detectTs flds).isSome = true ∧
        p = mkPoint flds (inheritIid flds (iidInto iid obj π))
              (inheritUnit flds (unitInto unitv obj π)) := by
  intro fuel
  induction fuel with
  | zero => intro obj iid unitv p hp; cases hp
  | succ fuel ih =>
    intro obj iid unitv p hp
    cases obj with
    | null => cases hp
    | bool b => cases hp
    | num q => cases hp
    | str s => cases hp
    | obj flds =>
      rcases List.mem_append.mp hp with hl | hr
      · cases hts : detectTs flds with
        | none => rw [hts] at hl; cases hl
        | some ts =>
          rw [hts] at hl
          rcases List.mem_singleton.mp hl with rfl
          exact ⟨[], flds, rfl, Nat.succ_pos fuel, by rw [hts]; rfl, rfl⟩
      · rcases (mem_foldr_append _ flds p).mp hr with ⟨e, he, hpe⟩
        rcases ih e.2 (inheritIid flds iid) (inheritUnit flds unitv) p hpe with
          ⟨π, flds', hget, hlen, hts, hpt⟩
        rcases List.getElem?_of_mem he with ⟨n, hn⟩
        refine ⟨.fld n :: π, flds', ?_, Nat.succ_lt_succ hlen, hts, ?_⟩
        · show getAt (Json.obj flds) (.fld n :: π) = some (.obj flds')
          unfold getAt
          rw [hn]
          exact hget
        · rw [hpt]
          have hiid : iidInto iid (Json.obj flds) (.fld n :: π) =
              iidInto (inheritIid flds iid) e.2 π := by
            show ctxInto inheritIid iid (Json.obj flds) (.fld n :: π) = _
            unfold ctxInto
            rw [hn]
            rfl
          have hunit : unitInto unitv (Json.obj flds) (.fld n :: π) =
              unitInto (inheritUnit flds unitv) e.2 π := by
            show ctxInto inheritUnit unitv (Json.obj flds) (.fld n :: π) = _
            unfold ctxInto
            rw [hn]
            rfl
          rw [hiid, hunit]
    | arr xs =>
      rcases (mem_foldr_append _ xs p).mp hp with ⟨v, hv, hpv⟩
      rcases ih v iid unitv p hpv with ⟨π, flds', hget, hlen, hts, hpt⟩
      rcases List.getElem?_of_mem hv with ⟨n, hn⟩
      refine ⟨.idx n :: π, flds', ?_, Nat.succ_lt_succ hlen, hts, ?_⟩
      · show getAt (Json.arr xs) (.idx n :: π) = some (.obj flds')
        unfold getAt
        rw [hn]
        exact hget
      · rw [hpt]
        have hiid : iidInto iid (Json.arr xs) (.idx n :: π) = iidInto iid v π := by
          show ctxInto inheritIid iid (Json.arr xs) (.idx n :: π) = _
          unfold ctxInto
          rw [hn]
          rfl
        have hunit : unitInto unitv (Json.arr xs) (.idx n :: π) = unitInto unitv v π := by
          show ctxInto inheritUnit unitv (Json.arr xs) (.idx n :: π) = _
          unfold ctxInto
          rw [hn]
          rfl
        rw [hiid, hunit]

theorem getAt_nil (o : Json) : getAt o [] = some o := by cases o <;> rfl

theorem walkGo_complete :
    ∀ (π : List Step) (fuel : ℕ) (obj iid unitv : Json) (flds : List (String × Json)),
      getAt obj π = some (.obj flds) → π.length < fuel → (detectTs flds).isSome = true →
      mkPoint flds (inheritIid flds (iidInto iid obj π))
          (inheritUnit flds (unitInto unitv obj π)) ∈ walkGo fuel obj iid unitv
  | [], fuel, obj, iid, unitv, flds, hget, hlen, hts => by
    cases fuel with
    | zero => cases hlen
    | succ fuel =>
      have hobj : obj = Json.obj flds :=
        Option.some_injective _ ((getAt_nil obj).symm.trans hget)
      subst hobj
      apply List.mem_append_left
      rcases Option.isSome_iff_exists.mp hts with ⟨ts, hts'⟩
      rw [hts']
      show mkPoint flds (inheritIid flds iid) (inheritUnit flds unitv) ∈ [_]
      exact List.mem_singleton.mpr rfl
  | .fld n :: π, fuel, obj, iid, unitv, flds, hget, hlen, hts => by
    cases fuel with
    | zero => cases hlen
    | succ fuel =>
      cases obj with
      | obj flds' =>
        unfold getAt at hget
        cases hn : flds'[n]? with
        | none => rw [hn] at hget; cases hget
        | some e =>
          rw [hn] at hget
          have he : e ∈ flds' := List.getElem?_mem hn
          apply List.mem_append_right
          refine (mem_foldr_append _ flds' _).mpr ⟨e, he, ?_⟩
          have hiid : iidInto iid (Json.obj flds') (.fld n :: π) =
              iidInto (inheritIid flds' iid) e.2 π := by
            show ctxInto inheritIid iid (Json.obj flds') (.fld n :: π) = _
            unfold ctxInto
            rw [hn]
            rfl
          have hunit : unitInto unitv (Json.obj flds') (.fld n :: π) =
              unitInto (inheritUnit flds' unitv) e.2 π := by
            show ctxInto inheritUnit unitv (Json.obj flds') (.fld n :: π) = _
            unfold ctxInto
            rw [hn]
            rfl
          rw [hiid, hunit]
          exact walkGo_complete π fuel e.2 (inheritIid flds' iid) (inheritUnit flds' unitv)
            flds hget (Nat.lt_of_succ_lt_succ hlen) hts
      | null => cases hget
      | bool b => cases hget
      | num q => cases hget
      | str s => cases hget
      | arr xs => cases hget
  | .idx n :: π, fuel, obj, iid, unitv, flds, hget, hlen, hts => by
    cases fuel with
    | zero => cases hlen
    | succ fuel =>
      cases obj with
      | arr xs =>
        unfold getAt at hget
        cases hn : xs[n]? with
        | none => rw [hn] at hget; cases hget
        | some v =>
          rw [hn] at hget
          have hv : v ∈ xs := List.getElem?_mem hn
          refine (mem_foldr_append _ xs _).mpr ⟨v, hv, ?_⟩
          have hiid : iidInto iid (Json.arr xs) (.idx n :: π) = iidInto iid v π := by
            show ctxInto inheritIid iid (Json.arr xs) (.idx n :: π) = _
            unfold ctxInto
            rw [hn]
            rfl
          have hunit : unitInto unitv (Json.arr xs) (.idx n :: π) = unitInto unitv v π := by
            show ctxInto inheritUnit unitv (Json.arr xs) (.idx n :: π) = _
            unfold ctxInto
            rw [hn]
            rfl
          rw [hiid, hunit]
          exact walkGo_complete π fuel v iid unitv flds hget (Nat.lt_of_succ_lt_succ hlen) hts
      | null => cases hget
      | bool b => cases hget
      | num q => cases hget
      | str s => cases hget
      | obj flds' => cases hget

theorem inheritIid_getD (flds : List (String × Json)) (cur : Json) :
    inheritIid flds cur = (ownIdOf (.obj flds)).getD cur := by
  unfold inheritIid ownIdOf pyOr
  by_cases h1 : truthy (pyGet flds "instrumentId") <;>
    by_cases h2 : truthy (pyGet flds "instrument_id") <;>
      by_cases h3 : truthy (pyGet flds "id") <;>
        simp [h1, h2, h3]

theorem inheritUnit_getD (flds : List (String × Json)) (cur : Json) :
    inheritUnit flds cur = (ownUnitOf (.obj flds)).getD cur := by
  unfold inheritUnit ownUnitOf pyOr
  by_cases h1 : truthy (pyGet flds "unit") <;>
    by_cases h2 : truthy (pyGet flds "units") <;>
      simp [h1, h2]

theorem ctxInto_findSome (own : Json → Option Json)
    (upd : List (String × Json) → Json → Json)
    (hupd : ∀ flds cur, upd flds cur = (own (Json.obj flds)).getD cur) :
    ∀ (π : List Step) (obj cur : Json),
      ctxInto upd cur obj π = ((ancObjs obj π).reverse.findSome? own).getD cur
  | [], obj, cur => by
    have hanc : ancObjs obj [] = [] := by cases obj <;> rfl
    rw [hanc]
    cases obj <;> rfl
  | .fld n :: π, obj, cur => by
    cases obj with
    | obj flds =>
      cases hn : flds[n]? with
      | none =>
        show (match flds[n]? with
          | some e => ctxInto upd (upd flds cur) e.2 π
          | none => cur) = _
        rw [hn]
        show cur = ((match flds[n]? with
          | some e => Json.obj flds :: ancObjs e.2 π
          | none => []).reverse.findSome? own).getD cur
        rw [hn]
        rfl
      | some e =>
        show (match flds[n]? with
          | some e => ctxInto upd (upd flds cur) e.2 π
          | none => cur) = ((match flds[n]? with
          | some e => Json.obj flds :: ancObjs e.2 π
          | none => []).reverse.findSome? own).getD cur
        rw [hn]
        show ctxInto upd (upd flds cur) e.2 π =
          (((Json.obj flds :: ancObjs e.2 π).reverse).findSome? own).getD cur
        rw [ctxInto_findSome own upd hupd π e.2 (upd flds cur), hupd flds cur]
        rw [List.reverse_cons, findSome?_append_opt own]
        cases hrev : (ancObjs e.2 π).reverse.findSome? own with
        | some v => rfl
        | none =>
          cases h2 : own (Json.obj flds) <;> simp [h2, List.findSome?_cons]
    | null => rfl
    | bool b => rfl
    | num q => rfl
    | str s => rfl
    | arr xs => rfl
  | .idx n :: π, obj, cur => by
    cases obj with
    | arr xs =>
      cases hn : xs[n]? with
      | none =>
        show (match xs[n]? with
          | some v => ctxInto upd cur v π
          | none => cur) = ((match xs[n]? with
          | some v => ancObjs v π
          | none => []).reverse.findSome? own).getD cur
        rw [hn]
        rfl
      | some v =>
        show (match xs[n]? with
          | some v => ctxInto upd cur v π
          | none => cur) = ((match xs[n]? with
          | some v => ancObjs v π
          | none => []).reverse.findSome? own).getD cur
        rw [hn]
        exact ctxInto_findSome own upd hupd π v cur
    | null => rfl
    | bool b => rfl
    | num q => rfl
    | str s => rfl
    | obj flds => rfl

theorem iidInto_nearest (iid obj : Json) (π : List Step) :
    iidInto iid obj π = ((ancObjs obj π).reverse.findSome? ownIdOf).getD iid :=
  ctxInto_findSome ownIdOf inheritIid inheritIid_getD π obj iid

theorem unitInto_nearest (unitv obj : Json) (π : List Step) :
    unitInto unitv obj π = ((ancObjs obj π).reverse.findSome? ownUnitOf).getD unitv :=
  ctxInto_findSome ownUnitOf inheritUnit inheritUnit_getD π obj unitv

/-! # Lemmas about the phase classifier -/

theorem scanStep_mem (out : List (String × ℚ)) (e : String × Json) (pv : String × ℚ)
    (h : pv ∈ scanStep out e) : pv ∈ out ∨ pv.1 = "A" ∨ pv.1 = "B" ∨ pv.1 = "C" := by
  simp only [scanStep] at h
  split at h
  · exact Or.inl h
  · split at h
    · exact Or.inl h
    · split at h
      · rcases List.mem_append.mp h with h1 | h1
        · exact Or.inl h1
        · rcases List.mem_singleton.mp h1 with rfl
          exact Or.inr (Or.inl rfl)
      · split at h
        · rcases List.mem_append.mp h with h1 | h1
          · exact Or.inl h1
          · rcases List.mem_singleton.mp h1 with rfl
            exact Or.inr (Or.inr (Or.inl rfl))
        · split at h
          · rcases List.mem_append.mp h with h1 | h1
            · exact Or.inl h1
            · rcases List.mem_singleton.mp h1 with rfl
              exact Or.inr (Or.inr (Or.inr rfl))
          · exact Or.inl h

theorem phaseScan_fold_mem :
    ∀ (flds : List (String × Json)) (acc : List (String × ℚ)) (pv : String × ℚ),
      pv ∈ flds.foldl scanStep acc → pv ∈ acc ∨ pv.1 = "A" ∨ pv.1 = "B" ∨ pv.1 = "C"
  | [], _, _, h => Or.inl h
  | e :: rest, acc, pv, h => by
    rcases phaseScan_fold_mem rest (scanStep acc e) pv h with h1 | h1
    · rcases scanStep_mem acc e pv h1 with h2 | h2
      · exact Or.inl h2
      · exact Or.inr h2
    · exact Or.inr h1

theorem phaseScan_labels (flds : List (String × Json)) (pv : String × ℚ)
    (h : pv ∈ phaseScan flds) : pv.1 = "A" ∨ pv.1 = "B" ∨ pv.1 = "C" := by
  rcases phaseScan_fold_mem flds [] pv h with h1 | h1
  · cases h1
  · exact h1

theorem phaseFromSubject_cases (j : Json) (s : String)
    (h : phaseFromSubject j = some s) :
    s = "L1" ∨ s = "L2" ∨ s = "L3" ∨ s = "TOTAL" := by
  simp only [phaseFromSubject] at h
  split_ifs at h <;> simp_all

/-! # The claims -/

/-- C4: for every batch of canonical rows and every store state, applying
the upsert batch twice leaves the store in the same state as applying it
once — the second application changes no stored row and the row count is
unchanged by the second run. -/
theorem claim_C4 (s : List ((Int × String × String) × (ℚ × Json))) (rows : List Row) :
    applyRows (applyRows s rows) rows = applyRows s rows ∧
    (applyRows (applyRows s rows) rows).length = (applyRows s rows).length := by
  have h : applyRows (applyRows s rows) rows = applyRows s rows :=
    applyBatchK_idem s (rows.map (fun r => (keyOf r, valOf r)))
  exact ⟨h, by rw [h]⟩

/-- C6: `_upsert` executes the batch inside a single transaction — a
mid-batch statement failure leaves the committed store unchanged (no row of
the batch is committed), and on success the call returns the number of rows
processed (`len(rows)`), never distinguishing inserts from updates. -/
theorem claim_C6 (fail : Row → Bool)
    (s : List ((Int × String × String) × (ℚ × Json))) (rows : List Row) :
    (∀ e, (upsertCall fail rowKV s rows).2 = .error e →
      (upsertCall fail rowKV s rows).1 = s) ∧
    (∀ n, (upsertCall fail rowKV s rows).2 = .ok n → n = rows.length) := by
  by_cases hemp : rows.isEmpty = true
  · have h1 : upsertCall fail rowKV s rows = (s, .ok 0) := by
      unfold upsertCall
      rw [if_pos hemp]
    rw [h1]
    refine ⟨fun e _ => rfl, fun n hn => ?_⟩
    cases hn
    rw [List.isEmpty_iff.mp hemp]
    rfl
  · cases hrun : runRows fail rowKV s rows with
    | some pending =>
      have h1 : upsertCall fail rowKV s rows = (pending, .ok rows.length) := by
        unfold upsertCall
        rw [if_neg hemp, hrun]
      rw [h1]
      exact ⟨fun e he => (nomatch he), fun n hn => by cases hn; rfl⟩
    | none =>
      have h1 : upsertCall fail rowKV s rows = (s, .error "PersistenceError") := by
        unfold upsertCall
        rw [if_neg hemp, hrun]
      rw [h1]
      exact ⟨fun e _ => rfl, fun n hn => nomatch hn⟩

/-- C6 witness: a failing one-row batch leaves the empty store untouched; a
successful two-row batch reports 2 = len(rows). -/
theorem claim_C6_witness :
    (upsertCall failOnIid1 rowKV [] [rowW1]).1 = [] ∧ (2 : ℕ) = [rowW1, rowW2].length :=
  ⟨(claim_C6 failOnIid1 [] [rowW1]).1 "PersistenceError" rfl,
   (claim_C6 neverFail [] [rowW1, rowW2]).2 2 rfl⟩

/-- C9: for each windowed table (`voltage_mean_10m` and
`current_mean_10m`), replication copies exactly the primary rows with
`ts_utc ≥ now − h hours` (per-table count = size of that selection), the
selection is characterized by the inclusive inequality, and a row sitting
exactly on `now − h hours` is included. -/
theorem claim_C9 (env : SyncEnv) (cloud : CloudState) (h : Int)
    (hc : env.cloudConfigured = true) :
    (syncOne env cloud "voltage_mean_10m" h =
      .ok (⟨cloud.instr,
            applyBatchK cloud.v10 ((selectWindowV env h).map
              (fun r => ((r.iid, r.ts, r.phase), (r.value, r.unit)))),
            cloud.c10⟩, (selectWindowV env h).length) ∧
     (∀ r : SRow, r ∈ selectWindowV env h ↔ r ∈ env.voltage10m ∧ env.now - 3600 * h ≤ r.ts) ∧
     (∀ r : SRow, r ∈ env.voltage10m → r.ts = env.now - 3600 * h →
       r ∈ selectWindowV env h)) ∧
    (syncOne env cloud "current_mean_10m" h =
      .ok (⟨cloud.instr, cloud.v10,
            applyBatchK cloud.c10 ((selectWindowC env h).map
              (fun r => ((r.iid, r.ts, r.phase), (r.value, r.unit))))⟩,
          (selectWindowC env h).length) ∧
     (∀ r : SRow, r ∈ selectWindowC env h ↔ r ∈ env.current10m ∧ env.now - 3600 * h ≤ r.ts) ∧
     (∀ r : SRow, r ∈ env.current10m → r.ts = env.now - 3600 * h →
       r ∈ selectWindowC env h)) := by
  refine ⟨⟨?_, ?_, ?_⟩, ⟨?_, ?_, ?_⟩⟩
  · unfold syncOne
    rw [hc]
    simp
  · intro r
    simp [selectWindowV, List.mem_filter]
  · intro r hr hts
    simp [selectWindowV, List.mem_filter, hr, hts]
  · unfold syncOne
    rw [hc]
    simp
  · intro r
    simp [selectWindowC, List.mem_filter]
  · intro r hr hts
    simp [selectWindowC, List.mem_filter, hr, hts]

/-- C9 witness: for each windowed table, the boundary row
(`ts = now − 24h` exactly) is replicated. -/
theorem claim_C9_witness :
    rowBoundary ∈ selectWindowV envW 24 ∧ rowBoundaryC ∈ selectWindowC envWC 24 :=
  ⟨(claim_C9 envW cloudEmpty 24 rfl).1.2.2 rowBoundary (by decide) (by decide),
   (claim_C9 envWC cloudEmpty 24 rfl).2.2.2 rowBoundaryC (by decide) (by decide)⟩

/-- C10: `_sync_one` accepts only `instrument` / `voltage_mean_10m` /
`current_mean_10m` and raises `ValueError` for every other name; the
normalizers write `voltage_mean_30m`/`current_mean_30m`, the front end's
default sync list names exactly those tables, and a sync run over the
default list therefore fails. -/
theorem claim_C10 :
    (∀ (env : SyncEnv) (cloud : CloudState) (t : String) (h : Int),
      env.cloudConfigured = true → t ∉ supportedTables →
      syncOne env cloud t h = .error (.unsupportedTable t)) ∧
    defaultSyncTables = ["instrument", voltageTargetTable, currentTargetTable] ∧
    voltageTargetTable ∉ supportedTables ∧ currentTargetTable ∉ supportedTables ∧
    (∀ (env : SyncEnv) (cloud : CloudState) (h : Int), env.cloudConfigured = true →
      syncRun env cloud defaultSyncTables h =
        .error (.unsupportedTable voltageTargetTable)) := by
  refine ⟨?_, by decide, by decide, by decide, ?_⟩
  · intro env cloud t h hc hm
    simp only [supportedTables, List.mem_cons, List.not_mem_nil, or_false, not_or] at hm
    obtain ⟨h1, h2, h3⟩ := hm
    unfold syncOne
    rw [hc]
    simp [h1, h2, h3]
  · intro env cloud h hc
    have hd : defaultSyncTables = ["instrument", "voltage_mean_30m", "current_mean_30m"] := by
      decide
    rw [hd]
    simp [syncRun, syncOne, hc, voltageTargetTable]

/-- C10 witness: the concrete default run fails on `voltage_mean_30m`. -/
theorem claim_C10_witness :
    syncOne envW cloudEmpty "voltage_mean_30m" 24 =
      .error (.unsupportedTable "voltage_mean_30m") ∧
    syncRun envW cloudEmpty defaultSyncTables 24 =
      .error (.unsupportedTable voltageTargetTable) :=
  ⟨claim_C10.1 envW cloudEmpty "voltage_mean_30m" 24 rfl (by decide),
   claim_C10.2.2.2.2 envW cloudEmpty 24 rfl⟩

/-- C3 counterexample: with a failing table first in the list, `sync`
returns the propagated error — the remaining table is not attempted and no
per-table count is reported — even though syncing that remaining table by
itself succeeds with count 1. -/
theorem claim_C3_counterexample :
    syncRun envW cloudEmpty ["voltage_mean_30m", "instrument"] 24 =
      .error (.unsupportedTable "voltage_mean_30m") ∧
    syncOne envW cloudEmpty "instrument" 24 =
      .ok (⟨[(1, ("i1", true, "m"))], [], []⟩, 1) := ⟨rfl, rfl⟩

/-- C3 amended: when replicating a table raises, the exception propagates
out of the `sync` loop immediately: the run's result is that error, the
remaining tables are not attempted and no per-table counts are reported. -/
theorem claim_C3_amended (env : SyncEnv) (cloud : CloudState) (t : String)
    (rest : List String) (h : Int) (e : SyncError)
    (hfail : syncOne env cloud t h = .error e) :
    syncRun env cloud (t :: rest) h = .error e := by
  unfold syncRun
  rw [hfail]

/-- C3 witness. -/
theorem claim_C3_witness :
    syncRun envW cloudEmpty ("voltage_mean_30m" :: ["instrument"]) 24 =
      .error (.unsupportedTable "voltage_mean_30m") :=
  claim_C3_amended envW cloudEmpty "voltage_mean_30m" ["instrument"] 24
    (.unsupportedTable "voltage_mean_30m") rfl

/-- C5: the row mapper is total — a point whose id-alias chain is `None`,
whose timestamp is missing, whose classifier yields no pair, or whose id is
not `int()`-coercible is skipped and counted, never an error — and for any
batch, mapped points + skipped points = total points discovered. -/
theorem claim_C5 (du : String) (pts : List Point) :
    (mapPoints du pts).2 = pts.countP (fun p => (processPoint du p).isNone) ∧
    pts.countP (fun p => (processPoint du p).isSome) + (mapPoints du pts).2 = pts.length ∧
    (∀ p : Point,
      isNull (pointIid p) = true ∨ detectTs p = none ∨ phaseValues p = [] ∨
        pyInt (pointIid p) = none →
      processPoint du p = none) := by
  refine ⟨mapPoints_skipped du pts, ?_, ?_⟩
  · rw [mapPoints_skipped du pts]
    exact countP_some_add_none du pts
  · intro p hcase
    simp only [processPoint]
    cases hts : detectTs p with
    | none => rfl
    | some ts =>
      rcases hcase with h | h | h | h
      · simp [h]
      · rw [h] at hts
        cases hts
      · simp [h]
      · simp [h]

/-- C5 witness: a point with no timestamp-alias key is skipped. -/
theorem claim_C5_witness : processPoint "V" ptNoTs = none :=
  (claim_C5 "V" [ptNoTs]).2.2 ptNoTs (Or.inr (Or.inl (by decide)))

theorem phaseStep1_shape (flds : List (String × Json)) (out : List (String × ℚ))
    (h : phaseStep1 flds = some out) :
    ∃ ph v, out = [(ph, v)] ∧ phaseFromSubject (subjField flds) = some ph := by
  simp only [phaseStep1] at h
  by_cases htr : truthy (subjField flds) = true
  · rw [if_pos htr] at h
    cases hps : phaseFromSubject (subjField flds) with
    | none =>
      cases hnv : numericValue flds with
      | none => rw [hps, hnv] at h; cases h
      | some v => rw [hps, hnv] at h; cases h
    | some ph =>
      cases hnv : numericValue flds with
      | none => rw [hps, hnv] at h; cases h
      | some v =>
        rw [hps, hnv] at h
        cases h
        exact ⟨ph, v, rfl, rfl⟩
  · rw [if_neg htr] at h
    cases h

theorem phaseStep2_shape (flds : List (String × Json)) (out : List (String × ℚ))
    (h : phaseStep2 flds = some out) :
    truthy (phaseField flds) = true ∧
      ∃ v, out = [(removeL (strUpper (strTrim (pyStr (phaseField flds)))), v)] := by
  simp only [phaseStep2] at h
  by_cases htr : truthy (phaseField flds) = true
  · rw [if_pos htr] at h
    cases hnv : numericValue flds with
    | none => rw [hnv] at h; cases h
    | some v =>
      rw [hnv] at h
      cases h
      exact ⟨htr, v, rfl⟩
  · rw [if_neg htr] at h
    cases h

/-- C2 counterexample: the explicit-phase rule on `{phase: "L1", value: 5}`
removes every `"L"` — the classifier yields `("1", 5)`, and `"1"` is not a
member of the closed enum `{L1, L2, L3, TOTAL}`; the claimed pair
`(L1, 5)` is not yielded. -/
theorem claim_C2_counterexample :
    phaseValues ptC2 = [("1", 5)] ∧ ("L1", (5 : ℚ)) ∉ phaseValues ptC2 ∧
    "1" ∉ (["L1", "L2", "L3", "TOTAL"] : List String) := by decide

/-- C2 amended: every pair the classifier yields is labelled from
`{L1, L2, L3, TOTAL}` (subject rule, fallback) or `{A, B, C}` (key scan) —
except the explicit-phase rule, whose label is the uppercased phase string
with every `"L"` removed (so an explicit `"L1"` yields `"1"`, outside the
closed enum). -/
theorem claim_C2_amended (flds : List (String × Json)) (p : String) (v : ℚ)
    (h : (p, v) ∈ phaseValues flds) :
    p ∈ (["L1", "L2", "L3", "TOTAL", "A", "B", "C"] : List String) ∨
      (truthy (phaseField flds) = true ∧
        p = removeL (strUpper (strTrim (pyStr (phaseField flds))))) := by
  simp only [phaseValues] at h
  cases hs1 : phaseStep1 flds with
  | some out1 =>
    rw [hs1] at h
    rcases phaseStep1_shape flds out1 hs1 with ⟨ph, v', hout, hps⟩
    subst hout
    have heq := List.mem_singleton.mp h
    have hp : p = ph := congrArg Prod.fst heq
    subst hp
    left
    rcases phaseFromSubject_cases _ _ hps with h1 | h1 | h1 | h1 <;> simp [h1]
  | none =>
    rw [hs1] at h
    cases hs2 : phaseStep2 flds with
    | some out2 =>
      rw [hs2] at h
      rcases phaseStep2_shape flds out2 hs2 with ⟨htr, v', hout⟩
      subst hout
      have heq := List.mem_singleton.mp h
      right
      exact ⟨htr, congrArg Prod.fst heq⟩
    | none =>
      rw [hs2] at h
      by_cases he : (phaseScan flds).isEmpty = true
      · rw [if_pos he] at h
        cases hnv : numericValue flds with
        | some v2 =>
          simp only [hnv] at h
          have heq := List.mem_singleton.mp h
          have hp : p = "TOTAL" := congrArg Prod.fst heq
          left
          simp [hp]
        | none =>
          simp only [hnv] at h
          cases h
      · rw [if_neg he] at h
        left
        rcases phaseScan_labels flds (p, v) h with h1 | h1 | h1 <;> simp only at h1 <;> simp [h1]

/-- C2 witness: the amended disjunction at the explicit-phase point. -/
theorem claim_C2_witness :
    "1" ∈ (["L1", "L2", "L3", "TOTAL", "A", "B", "C"] : List String) ∨
      (truthy (phaseField ptC2) = true ∧
        "1" = removeL (strUpper (strTrim (pyStr (phaseField ptC2))))) :=
  claim_C2_amended ptC2 "1" 5 (by decide)

/-- C1 counterexample: the key-scan on the spec's multi-phase point yields
the pairs labelled `"A"`, `"B"`, `"C"` — none of the claimed
`(L1, x)`, `(L2, y)`, `(L3, z)` pairs is yielded. -/
theorem claim_C1_counterexample :
    phaseValues ptC1 = [("A", mkRat 2301 10), ("B", mkRat 2298 10), ("C", 231)] ∧
    ("L1", mkRat 2301 10) ∉ phaseValues ptC1 ∧
    ("L2", mkRat 2298 10) ∉ phaseValues ptC1 ∧
    ("L3", (231 : ℚ)) ∉ phaseValues ptC1 := by decide

/-- C1 amended: for every numeric `x, y, z` and non-`float()`-coercible
string `T`, the classifier on
`{voltageL1: x, voltageL2: y, voltageL3: z, timestamp: T}` yields exactly
one pair per matching key, in key order — but labelled with the key-scan's
`"A"` / `"B"` / `"C"` labels, not the `L1`/`L2`/`L3` enum constants. -/
theorem claim_C1_amended (x y z : ℚ) (t : String) (h : parseFloat t = none) :
    phaseValues (mkKeyScanPoint x y z t) = [("A", x), ("B", y), ("C", z)] := by
  have h' : pyFloat (Json.str t) = none := h
  have hscan : phaseScan (mkKeyScanPoint x y z t) = [("A", x), ("B", y), ("C", z)] := by
    show scanStep [("A", x), ("B", y), ("C", z)] ("timestamp", Json.str t) = _
    simp [scanStep, isNull, h']
  have h1 : phaseValues (mkKeyScanPoint x y z t) =
      if (phaseScan (mkKeyScanPoint x y z t)).isEmpty then
        (match numericValue (mkKeyScanPoint x y z t) with
         | some v => [("TOTAL", v)]
         | none => [])
      else phaseScan (mkKeyScanPoint x y z t) := rfl
  rw [h1, hscan]
  rfl

/-- C1 witness. -/
theorem claim_C1_witness :
    phaseValues (mkKeyScanPoint 1 2 3 "T") = [("A", 1), ("B", 2), ("C", 3)] :=
  claim_C1_amended 1 2 3 "T" (by decide)

/-- C7: the walker is total (its result is a finite list), returns nothing
once the depth counter exceeds 8, and every yielded point originates at a
position of the input no deeper than the bound: a dict nested deeper than
depth 8 is never yielded. -/
theorem claim_C7 :
    (∀ (obj iid unitv : Json) (d : ℕ), 8 < d → walkPoints obj iid unitv d = []) ∧
    (∀ (obj iid unitv : Json) (d : ℕ) (p : Point), p ∈ walkPoints obj iid unitv d →
      ∃ (π : List Step) (flds : List (String × Json)),
        getAt obj π = some (.obj flds) ∧ π.length + d ≤ 8 ∧
        (detectTs flds).isSome = true ∧
        p = mkPoint flds (inheritIid flds (iidInto iid obj π))
              (inheritUnit flds (unitInto unitv obj π))) := by
  constructor
  · intro obj iid unitv d hd
    unfold walkPoints
    rw [Nat.sub_eq_zero_of_le (by omega)]
    rfl
  · intro obj iid unitv d p hp
    rcases walkGo_sound (9 - d) obj iid unitv p hp with ⟨π, flds, hget, hlen, hts, hpt⟩
    exact ⟨π, flds, hget, by omega, hts, hpt⟩

/-- C7 witness: at depth 9 the walker yields nothing, and the first point
of the nested example is yielded from a position within the bound. -/
theorem claim_C7_witness :
    walkPoints exC8 .null .null 9 = [] ∧
    ∃ (π : List Step) (flds : List (String × Json)),
      getAt exC8 π = some (.obj flds) ∧ π.length + 0 ≤ 8 ∧
      (detectTs flds).isSome = true ∧
      pt1C8 = mkPoint flds (inheritIid flds (iidInto .null exC8 π))
        (inheritUnit flds (unitInto .null exC8 π)) :=
  ⟨claim_C7.1 exC8 .null .null 9 (by omega),
   claim_C7.2 exC8 .null .null 0 pt1C8 (List.mem_cons_self _ _)⟩

/-- C8: the nested-propagation example maps to exactly two canonical rows,
both with instrument id 7; in general every point reachable at a path
within the depth bound is yielded carrying the inherited instrument id and
unit of that path, and when the point's dict defines no id (unit) of its
own, the carried id (unit) is the one defined by the nearest ancestor —
the first `some` scanning the ancestor dicts innermost-first — or the
initial context if none defines one. -/
theorem claim_C8 :
    normalizeVoltageRows exC8 =
      ([⟨7, "T1", "TOTAL", 1, .str "V"⟩, ⟨7, "T2", "TOTAL", 2, .str "V"⟩], 0) ∧
    (∀ (obj iid unitv : Json) (π : List Step) (flds : List (String × Json)),
      getAt obj π = some (.obj flds) → π.length ≤ 8 → (detectTs flds).isSome = true →
      mkPoint flds (inheritIid flds (iidInto iid obj π))
          (inheritUnit flds (unitInto unitv obj π)) ∈ walkPoints obj iid unitv 0) ∧
    (∀ (iid obj : Json) (π : List Step) (flds : List (String × Json)),
      ownIdOf (.obj flds) = none →
      inheritIid flds (iidInto iid obj π) =
        ((ancObjs obj π).reverse.findSome? ownIdOf).getD iid) ∧
    (∀ (unitv obj : Json) (π : List Step) (flds : List (String × Json)),
      ownUnitOf (.obj flds) = none →
      inheritUnit flds (unitInto unitv obj π) =
        ((ancObjs obj π).reverse.findSome? ownUnitOf).getD unitv) := by
  refine ⟨rfl, ?_, ?_, ?_⟩
  · intro obj iid unitv π flds hget hlen hts
    exact walkGo_complete π 9 obj iid unitv flds hget (by omega) hts
  · intro iid obj π flds hown
    rw [inheritIid_getD, hown]
    exact iidInto_nearest iid obj π
  · intro unitv obj π flds hown
    rw [inheritUnit_getD, hown]
    exact unitInto_nearest unitv obj π

/-- C8 witness: the first value-point of the example, which defines no own
id, is yielded with the id inherited along its path, and that id is the
nearest-ancestor one. -/
theorem claim_C8_witness :
    mkPoint [("timestamp", .str "T1"), ("value", .num 1)]
        (inheritIid [("timestamp", .str "T1"), ("value", .num 1)]
          (iidInto .null exC8 [.fld 1, .idx 0]))
        (inheritUnit [("timestamp", .str "T1"), ("value", .num 1)]
          (unitInto .null exC8 [.fld 1, .idx 0]))
      ∈ walkPoints exC8 .null .null 0 ∧
    inheritIid [("timestamp", .str "T1"), ("value", .num 1)]
        (iidInto .null exC8 [.fld 1, .idx 0]) =
      ((ancObjs exC8 [.fld 1, .idx 0]).reverse.findSome? ownIdOf).getD .null :=
  ⟨claim_C8.2.1 exC8 .null .null [.fld 1, .idx 0]
      [("timestamp", .str "T1"), ("value", .num 1)] rfl (by simp) rfl,
   claim_C8.2.2.1 .null exC8 [.fld 1, .idx 0]
      [("timestamp", .str "T1"), ("value", .num 1)] rfl⟩

end Sub360
